import Mathlib

/-!
Shallow embedding of the availability slot generator
(`getSlots` / `buildSlotsWithDateRanges`) of the cal.com repository.

Modelling conventions:
* A dayjs value is an instant (seconds since epoch, `Int`) together with a
  display offset in minutes (`Int`).  `.utc()` sets the offset to 0 and
  `.tz(timeZone)` sets it to the zone's offset; neither changes the instant.
  Comparisons (`isAfter`, `isBefore`), `valueOf` and `toISOString` depend on
  the instant only.
* A timezone is a name plus a fixed UTC offset in minutes (the generator only
  ever reads `dayjs().tz(timeZone).utcOffset()` once, at "now"; DST is out of
  scope of the claims, which use fixed-offset zones such as Asia/Kolkata).
* JS numbers that hold whole minutes are modelled as `Int`; `%` is `Int.emod`,
  which agrees with the JS remainder on the nonnegative dividends used here,
  and for the one signed use (`tzOffsetMinutes % 60 !== 0`) both conventions
  agree on being zero / nonzero.
* The JS `Map` keyed by ISO instant string is modelled as an association list
  `List (Int × SlotData)` keyed by the instant, with `Map.set` semantics:
  replace in place when the key exists, append otherwise.
* `YYYY-MM-DD` formatting of a dayjs value is modelled as its local calendar
  day index (floor of local seconds / 86400); the out-of-office record keyed
  by date string becomes a function `Int → Option OOOEntry`.
* The `while` emission loop is a fuel-indexed recursion; the caller passes
  `(range.end - start).toNat + 1` fuel, an upper bound on the number of
  iterations whenever each iteration advances by at least one second.  The
  second component of `emitLoop`'s result records whether the loop exited
  normally (`true`) or ran out of fuel (`false`), which makes the
  (non-)termination of the source loop expressible.
* `Array.prototype.sort` mutates the caller's array in place; the function
  therefore returns, next to the slot list, the final contents of the
  caller's `dateRanges` array (its sorted permutation).
* `IFromUser` / `IToUser` come from `@calcom/lib/getUserAvailability`, which
  is outside the sources; the generator treats them as opaque truthy objects,
  so they are modelled as opaque records.
-/

namespace SlotGen

/-- Model of a dayjs value: an instant in seconds since the epoch plus the
display offset in minutes. -/
structure Dayjs where
  instant : Int
  utcOffset : Int
deriving Repr, DecidableEq

/-- Model of a timezone: IANA name plus its (fixed) UTC offset in minutes. -/
structure Timezone where
  name : String
  utcOffset : Int
deriving Repr, DecidableEq

/-- `DateRange` from `date-ranges.ts`: `{ start: Dayjs; end: Dayjs }`
(`end` is a Lean keyword, hence `endTime`). -/
structure DateRange where
  start : Dayjs
  endTime : Dayjs
deriving Repr, DecidableEq

/-- Opaque model of `IFromUser` (from `@calcom/lib/getUserAvailability`):
the generator only copies it around and tests JS truthiness, which for an
object is "present". -/
structure IFromUser where
  id : Int
deriving Repr, DecidableEq

/-- Opaque model of `IToUser`, as for `IFromUser`. -/
structure IToUser where
  id : Int
deriving Repr, DecidableEq

/-- One value of the out-of-office record `IOutOfOfficeData`:
`{ toUser?, fromUser?, reason?, emoji? }`. -/
structure OOOEntry where
  fromUser : Option IFromUser
  toUser : Option IToUser
  reason : Option String
  emoji : Option String
deriving Repr, DecidableEq

/-- The out-of-office record, keyed by the local calendar day index
(the model of the `YYYY-MM-DD` key). -/
abbrev OOOData : Type := Int → Option OOOEntry

/-- `SlotData` of the source.  A JS object field that the builder omits is
`none`; `away` is `some true` exactly when the source sets `away: true`. -/
structure SlotData where
  time : Dayjs
  userIds : Option (List Int) := none
  away : Option Bool := none
  fromUser : Option IFromUser := none
  toUser : Option IToUser := none
  reason : Option String := none
  emoji : Option String := none
deriving Repr, DecidableEq

/-- The slot `Map` keyed by ISO instant: association list in insertion order. -/
abbrev SlotMap : Type := List (Int × SlotData)

/-- `const minimumOfOne = (input) => (input < 1 ? 1 : input)`. -/
def minimumOfOne (input : Int) : Int := if input < 1 then 1 else input

/-- Line 51: `offsetStart = offsetStart ? minimumOfOne(offsetStart) : 0`.
JS truthiness of a number: `undefined` and `0` are falsy. -/
def normalizeOffsetStart : Option Int → Int
  | none => 0
  | some v => if v = 0 then 0 else minimumOfOne v

/-- UTC minute field of an instant: `dayjs.utc(t).minute()`. -/
def minuteUTC (t : Int) : Int := (t % 3600) / 60

/-- `dayjs.utc(t).startOf("hour")`: zeroes minutes and seconds. -/
def startOfHourUTC (t : Int) : Int := t - t % 3600

/-- `dayjs.utc(t).minute(m)`: set the minute field, keep hour and seconds. -/
def setMinuteUTC (t m : Int) : Int := t - 60 * minuteUTC t + 60 * m

/-- Minute field of a dayjs value in its own display offset
(`range.start.minute()` at line 74 of the source). -/
def Dayjs.minute (d : Dayjs) : Int := ((d.instant + 60 * d.utcOffset) % 3600) / 60

/-- Local calendar day index of a dayjs value: the model of
`d.format("YYYY-MM-DD")` (day strings are in bijection with day indices). -/
def localDayIndex (d : Dayjs) : Int := (d.instant + 60 * d.utcOffset) / 86400

/-- `Math.ceil(a / b)` for `0 ≤ a`, `1 ≤ b` (the only case the source hits:
`Math.ceil(slotStartTimeUTC.minute() / interval)`). -/
def ceilDiv (a b : Int) : Int := (a + b - 1) / b

/-- Line 56: `const intervalsWithDefinedStartTimes = [60, 30, 20, 15, 10, 5]`. -/
def intervalsWithDefinedStartTimes : List Int := [60, 30, 20, 15, 10, 5]

/-- The `for` loop of lines 58-63: first divisor wins, otherwise the
environment fallback (`Number(process.env…) || 1`, a parameter here). -/
def selectIntervalGo (fallback freq : Int) : List Int → Int
  | [] => fallback
  | d :: rest => if freq % d = 0 then d else selectIntervalGo fallback freq rest

/-- Interval selection of lines 55-63. -/
def selectInterval (fallback freq : Int) : Int :=
  selectIntervalGo fallback freq intervalsWithDefinedStartTimes

/-- Spec-side restatement of the granularity-selection sentence: the first
element of `{60, 30, 20, 15, 10, 5}` dividing the frequency evenly, else the
configured fallback.  Used only to compare against `selectInterval`. -/
def selectIntervalSpec (fallback freq : Int) : Int :=
  (intervalsWithDefinedStartTimes.find? (fun d => freq % d == 0)).getD fallback

/-- Lines 67-79 of the source: `shouldApplyHalfHourOffset`.
`freq` is the already-clamped frequency. -/
def halfHourFlag (fallback : Int) (tz : Timezone) (freq : Int)
    (dateRanges : List DateRange) : Bool :=
  let tzOffsetMinutes := tz.utcOffset
  let isHalfHourTimezone : Bool := tzOffsetMinutes % 60 != 0
  let isISTTimezone : Bool := tz.name == "Asia/Kolkata" || tzOffsetMinutes == 330
  let hasHalfHourStartTimes : Bool := dateRanges.any (fun range => range.start.minute == 30)
  (isISTTimezone || (isHalfHourTimezone && hasHalfHourStartTimes))
    && (selectInterval fallback freq == 60)

/-- The working state of one call, computed once in lines 49-79. -/
structure BuildParams where
  freq : Int
  len : Int
  off : Int
  interval : Int
  minNoticeFloor : Int
  flag : Bool
  tzOffset : Int
  ooo : OOOData

/-- Lines 49-79: clamping, interval selection, notice floor and half-hour
flag, computed from the raw arguments. -/
def mkBuildParams (fallback now : Int) (tz : Timezone) (dateRanges : List DateRange)
    (frequency eventLength minimumBookingNotice : Int) (offsetStart : Option Int)
    (datesOutOfOffice : OOOData) : BuildParams :=
  let freq := minimumOfOne frequency
  { freq := freq
    len := minimumOfOne eventLength
    off := normalizeOffsetStart offsetStart
    interval := selectInterval fallback freq
    minNoticeFloor := now + 60 * minimumBookingNotice
    flag := halfHourFlag fallback tz freq dateRanges
    tzOffset := tz.utcOffset
    ooo := datesOutOfOffice }

/-- Lines 85-87: `max(range.start in UTC, startTimeWithMinNotice)`. -/
def clampToNotice (P : BuildParams) (r : DateRange) : Int :=
  if r.start.instant > P.minNoticeFloor then r.start.instant else P.minNoticeFloor

/-- Lines 89-94: round up to the next interval multiple within the hour when
the UTC minute is not aligned. -/
def roundToInterval (P : BuildParams) (x : Int) : Int :=
  if minuteUTC x % P.interval ≠ 0 then
    startOfHourUTC x + 60 * (ceilDiv (minuteUTC x) P.interval * P.interval)
  else x

/-- Lines 98-103 and 160-165: force the UTC minute to 30 when the half-hour
correction is active and the minute is not already 30. -/
def applyHalfHour (P : BuildParams) (z : Int) : Int :=
  if P.flag = true ∧ minuteUTC z ≠ 30 then setMinuteUTC z 30 else z

/-- One step of the overlap-avoidance scan of lines 112-131 over an existing
key `k` (`stepSec = 60 * (frequency + offsetStart)`). -/
def overlapAdjustStep (rangeStart stepSec c k : Int) : Int :=
  if k < c ∧ c < k + stepSec then
    (if ¬ k < rangeStart then k else k + stepSec)
  else c

/-- The overlap-avoidance scan: fold over the map's keys in insertion order. -/
def overlapAdjust (keys : List Int) (rangeStart stepSec c : Int) : Int :=
  keys.foldl (fun c k => overlapAdjustStep rangeStart stepSec c k) c

/-- Lines 85-131: the adjusted start instant of one range's emission loop. -/
def rangeStartAdjusted (P : BuildParams) (keys : List Int) (r : DateRange) : Int :=
  overlapAdjust keys r.start.instant (60 * (P.freq + P.off))
    (applyHalfHour P (roundToInterval P (clampToNotice P r) + 60 * P.off))

/-- JS truthiness filter for an optional string field
(`...(reason && { reason })`): kept iff defined and nonempty. -/
def truthyStr : Option String → Option String
  | none => none
  | some s => if s = "" then none else some s

/-- Lines 138-154: the slot object for one emitted instant, given the
out-of-office entry found under the range's date key. -/
def mkSlotData (entry : Option OOOEntry) (t : Dayjs) : SlotData :=
  match entry with
  | none => { time := t }
  | some e =>
      { time := t
        away := some true
        fromUser := e.fromUser
        toUser := e.toUser
        reason := truthyStr e.reason
        emoji := truthyStr e.emoji }

/-- `slots.set(key, slotData)`: replace in place if the key exists, else
append (JS `Map` keeps the original insertion position on overwrite). -/
def mapSet (m : SlotMap) (k : Int) (v : SlotData) : SlotMap :=
  if m.any (fun p => p.1 = k) then
    m.map (fun p => if p.1 = k then (k, v) else p)
  else m ++ [(k, v)]

/-- Line 158 plus lines 160-165: advance by one step, then re-apply the
half-hour correction. -/
def nextSlotUTC (P : BuildParams) (c : Int) : Int :=
  applyHalfHour P (c + 60 * (P.freq + P.off))

/-- The emission `while` loop of lines 135-166, with fuel.  Returns the map
plus `true` iff the loop exited through its condition (rather than running
out of fuel). -/
def emitLoop (P : BuildParams) (dateKey rangeEnd : Int) :
    Nat → Int → SlotMap → SlotMap × Bool
  | 0, _, m => (m, false)
  | Nat.succ fuel, c, m =>
      if c + 60 * P.len - 1 > rangeEnd then (m, true)
      else
        emitLoop P dateKey rangeEnd fuel (nextSlotUTC P c)
          (mapSet m c (mkSlotData (P.ooo dateKey) { instant := c, utcOffset := P.tzOffset }))

/-- Lines 82-167: process one range against the accumulated map.  The fuel
`(range.end - start).toNat + 1` bounds the iteration count of the source's
`while` loop whenever every iteration advances by at least one second. -/
def processRange (P : BuildParams) (m : SlotMap) (r : DateRange) : SlotMap :=
  (emitLoop P (localDayIndex r.start) r.endTime.instant
    ((r.endTime.instant - rangeStartAdjusted P (m.map Prod.fst) r).toNat + 1)
    (rangeStartAdjusted P (m.map Prod.fst) r) m).1

/-- Comparator of line 81 (`a.start.valueOf() - b.start.valueOf()`) as a
total Boolean order. -/
def rangeLE (a b : DateRange) : Bool := a.start.instant ≤ b.start.instant

/-- Stable insertion into a list sorted by `rangeLE`. -/
def orderedInsert (a : DateRange) : List DateRange → List DateRange
  | [] => [a]
  | b :: l => if rangeLE a b then a :: b :: l else b :: orderedInsert a l

/-- `dateRanges.sort((a, b) => a.start.valueOf() - b.start.valueOf())`:
a stable ascending sort (ES2019+ `Array.prototype.sort` is stable). -/
def sortRanges : List DateRange → List DateRange
  | [] => []
  | a :: l => orderedInsert a (sortRanges l)

/-- `buildSlotsWithDateRanges` (lines 31-170).  The extra `fallback`, `now`
and `tz` arguments model `process.env.NEXT_PUBLIC_AVAILABILITY_SCHEDULE_INTERVAL`
(after `Number(…) || 1`), the frozen `dayjs.utc()` instant of line 65, and
the resolved timezone.  The second component of the result is the final
contents of the caller's `dateRanges` array, which line 81 sorts in place. -/
def buildSlotsWithDateRanges (fallback now : Int) (tz : Timezone)
    (dateRanges : List DateRange) (frequency eventLength minimumBookingNotice : Int)
    (offsetStart : Option Int) (datesOutOfOffice : OOOData) :
    List SlotData × List DateRange :=
  let P := mkBuildParams fallback now tz dateRanges frequency eventLength
    minimumBookingNotice offsetStart datesOutOfOffice
  let orderedDateRanges := sortRanges dateRanges
  ((orderedDateRanges.foldl (fun m r => processRange P m r) []).map Prod.snd,
    orderedDateRanges)

/-- `getSlots` (lines 172-198): delegates to `buildSlotsWithDateRanges` with
the invitee's timezone (`getTimeZone(inviteeDate)`, modelled as `inviteeTz`). -/
def getSlots (fallback now : Int) (inviteeTz : Timezone)
    (dateRanges : List DateRange) (frequency eventLength minimumBookingNotice : Int)
    (offsetStart : Option Int) (datesOutOfOffice : OOOData) :
    List SlotData × List DateRange :=
  buildSlotsWithDateRanges fallback now inviteeTz dateRanges frequency eventLength
    minimumBookingNotice offsetStart datesOutOfOffice

end SlotGen

namespace SlotGen

/-! ### Basic arithmetic facts about the minute-field operations -/

theorem minuteUTC_range (t : Int) : 0 ≤ minuteUTC t ∧ minuteUTC t < 60 := by
  unfold minuteUTC; omega

theorem setMinuteUTC_minute (t : Int) : minuteUTC (setMinuteUTC t 30) = 30 := by
  unfold setMinuteUTC minuteUTC; omega

theorem setMinuteUTC_eq_self (t : Int) (h : minuteUTC t = 30) : setMinuteUTC t 30 = t := by
  unfold setMinuteUTC at *; omega

theorem setMinuteUTC_add (t d : Int) :
    setMinuteUTC (t + 60 * d) 30 = setMinuteUTC t 30 + 3600 * ((minuteUTC t + d) / 60) := by
  unfold setMinuteUTC minuteUTC; omega

theorem setMinuteUTC_lb (t : Int) : t - 1740 ≤ setMinuteUTC t 30 := by
  unfold setMinuteUTC minuteUTC; omega

theorem minuteUTC_eq_30_iff (t : Int) : minuteUTC t = 30 ↔ 1800 ≤ t % 3600 ∧ t % 3600 < 1860 := by
  unfold minuteUTC; omega

theorem ceilDiv_mul_lb (a b : Int) (hb : 1 ≤ b) (ha : 0 ≤ a) (hnd : a % b ≠ 0) :
    a + 1 ≤ ceilDiv a b * b := by
  have hdm : b * ((a + b - 1) / b) + (a + b - 1) % b = a + b - 1 := Int.ediv_add_emod _ _
  have hr0 : 0 ≤ (a + b - 1) % b := Int.emod_nonneg _ (by omega)
  have hr1 : (a + b - 1) % b < b := Int.emod_lt_of_pos _ (by omega)
  have hcd : ceilDiv a b * b = b * ((a + b - 1) / b) := by unfold ceilDiv; ring
  rw [hcd]
  have hge : a ≤ b * ((a + b - 1) / b) := by omega
  rcases lt_or_eq_of_le hge with h | h
  · omega
  · exfalso
    exact hnd (Int.emod_eq_zero_of_dvd ⟨(a + b - 1) / b, h⟩)

/-! ### Facts about the start-of-range pipeline -/

theorem clampToNotice_ge (P : BuildParams) (r : DateRange) :
    P.minNoticeFloor ≤ clampToNotice P r ∧ r.start.instant ≤ clampToNotice P r := by
  unfold clampToNotice; split <;> omega

theorem roundToInterval_ge (P : BuildParams) (x : Int) (hi : 1 ≤ P.interval) :
    x ≤ roundToInterval P x := by
  unfold roundToInterval
  split
  · rename_i h
    have hmu := minuteUTC_range x
    have := ceilDiv_mul_lb (minuteUTC x) P.interval hi hmu.1 h
    unfold minuteUTC startOfHourUTC at *
    omega
  · exact le_refl x

theorem roundToInterval_minute0 (P : BuildParams) (x : Int) (h60 : P.interval = 60) :
    minuteUTC (roundToInterval P x) = 0 := by
  unfold roundToInterval
  rw [h60]
  split
  · rename_i h
    have hmu := minuteUTC_range x
    have hcd : ceilDiv (minuteUTC x) 60 = 1 := by unfold ceilDiv; omega
    rw [hcd]
    unfold minuteUTC startOfHourUTC at *
    omega
  · rename_i h
    have hmu := minuteUTC_range x
    omega

theorem applyHalfHour_minute (P : BuildParams) (z : Int) (hf : P.flag = true) :
    minuteUTC (applyHalfHour P z) = 30 := by
  unfold applyHalfHour
  split
  · exact setMinuteUTC_minute z
  · rename_i h
    push_neg at h
    exact h hf

theorem applyHalfHour_of_not_flag (P : BuildParams) (z : Int) (hf : P.flag = false) :
    applyHalfHour P z = z := by
  unfold applyHalfHour
  split
  · rename_i h; rw [hf] at h; simp at h
  · rfl

/-- The instant entering the emission loop, before the overlap-avoidance
scan: at or after the minimum-notice floor, at or after the range's start,
and (when the half-hour correction is active) on UTC minute 30. -/
theorem preStart_props (P : BuildParams) (r : DateRange)
    (hi : 1 ≤ P.interval) (hoff : 0 ≤ P.off) (hfi : P.flag = true → P.interval = 60) :
    P.minNoticeFloor ≤ applyHalfHour P (roundToInterval P (clampToNotice P r) + 60 * P.off) ∧
    r.start.instant ≤ applyHalfHour P (roundToInterval P (clampToNotice P r) + 60 * P.off) ∧
    (P.flag = true →
      minuteUTC (applyHalfHour P (roundToInterval P (clampToNotice P r) + 60 * P.off)) = 30) := by
  have hX := clampToNotice_ge P r
  have hY := roundToInterval_ge P (clampToNotice P r) hi
  refine ⟨?_, ?_, fun hf => applyHalfHour_minute P _ hf⟩ <;>
  · unfold applyHalfHour
    split
    · rename_i h
      have hf := h.1
      have hY0 := roundToInterval_minute0 P (clampToNotice P r) (hfi hf)
      rw [setMinuteUTC_add]
      have hq : 0 ≤ (minuteUTC (roundToInterval P (clampToNotice P r)) + P.off) / 60 := by
        have := minuteUTC_range (roundToInterval P (clampToNotice P r))
        omega
      unfold setMinuteUTC
      omega
    · omega

end SlotGen

namespace SlotGen

/-! ### Generic invariant engines for the map, the scan and the loop -/

theorem mapSet_mem (m : SlotMap) (k : Int) (v : SlotData) :
    ∀ p ∈ mapSet m k v, p = (k, v) ∨ p ∈ m := by
  intro p hp
  unfold mapSet at hp
  split at hp
  · rcases List.mem_map.mp hp with ⟨q, hq, hpq⟩
    by_cases h : q.1 = k
    · rw [if_pos h] at hpq; left; exact hpq.symm
    · rw [if_neg h] at hpq; right; exact hpq ▸ hq
  · rcases List.mem_append.mp hp with h | h
    · right; exact h
    · left; simpa using h

theorem overlapAdjust_inv (motive : Int → Prop) (rs step : Int) (keys : List Int)
    (hstep : ∀ c k, k ∈ keys → motive c → motive (overlapAdjustStep rs step c k)) :
    ∀ c, motive c → motive (overlapAdjust keys rs step c) := by
  induction keys with
  | nil => intro c hc; exact hc
  | cons k ks ih =>
      intro c hc
      unfold overlapAdjust at *
      simp only [List.foldl_cons]
      exact ih (fun c k hk hc => hstep c k (List.mem_cons_of_mem _ hk) hc) _
        (hstep c k (List.mem_cons_self _ _) hc)

theorem emitLoop_inv (P : BuildParams) (dk re : Int)
    (I : Int → Prop) (K : Int × SlotData → Prop)
    (hstep : ∀ c, I c → c + 60 * P.len - 1 ≤ re → I (nextSlotUTC P c))
    (hemit : ∀ c, I c → c + 60 * P.len - 1 ≤ re →
      K (c, mkSlotData (P.ooo dk) { instant := c, utcOffset := P.tzOffset })) :
    ∀ fuel (c : Int) (m : SlotMap), I c → (∀ p ∈ m, K p) →
      ∀ p ∈ (emitLoop P dk re fuel c m).1, K p := by
  intro fuel
  induction fuel with
  | zero => intro c m _ hm; exact hm
  | succ n ih =>
      intro c m hc hm
      unfold emitLoop
      split
      · exact hm
      · rename_i hguard
        refine ih (nextSlotUTC P c) _ (hstep c hc (by omega)) ?_
        intro p hp
        rcases mapSet_mem m c _ p hp with h | h
        · exact h ▸ hemit c hc (by omega)
        · exact hm p h

theorem processRange_inv (P : BuildParams) (r : DateRange)
    (I : Int → Prop) (K : Int × SlotData → Prop)
    (hentry : ∀ m : SlotMap, (∀ p ∈ m, K p) → I (rangeStartAdjusted P (m.map Prod.fst) r))
    (hstep : ∀ c, I c → c + 60 * P.len - 1 ≤ r.endTime.instant → I (nextSlotUTC P c))
    (hemit : ∀ c, I c → c + 60 * P.len - 1 ≤ r.endTime.instant →
      K (c, mkSlotData (P.ooo (localDayIndex r.start)) { instant := c, utcOffset := P.tzOffset })) :
    ∀ m : SlotMap, (∀ p ∈ m, K p) → ∀ p ∈ processRange P m r, K p := by
  intro m hm
  unfold processRange
  exact emitLoop_inv P _ _ I K hstep hemit _ _ m (hentry m hm) hm

theorem foldl_processRange_inv (P : BuildParams) (K : Int × SlotData → Prop) (l : List DateRange)
    (h : ∀ (m : SlotMap) r, r ∈ l → (∀ p ∈ m, K p) → ∀ p ∈ processRange P m r, K p) :
    ∀ m : SlotMap, (∀ p ∈ m, K p) →
      ∀ p ∈ l.foldl (fun m r => processRange P m r) m, K p := by
  induction l with
  | nil => intro m hm; exact hm
  | cons r rs ih =>
      intro m hm
      simp only [List.foldl_cons]
      exact ih (fun m r hr hm => h m r (List.mem_cons_of_mem _ hr) hm) _
        (h m r (List.mem_cons_self _ _) hm)

/-! ### Well-formedness of the computed parameters -/

theorem minimumOfOne_ge (x : Int) : 1 ≤ minimumOfOne x := by
  unfold minimumOfOne; split <;> omega

theorem normalizeOffsetStart_nonneg (o : Option Int) : 0 ≤ normalizeOffsetStart o := by
  cases o with
  | none => simp [normalizeOffsetStart]
  | some v =>
      simp only [normalizeOffsetStart]
      split
      · omega
      · have := minimumOfOne_ge v; omega

theorem selectInterval_pos (fallback freq : Int) (hfb : 1 ≤ fallback) :
    1 ≤ selectInterval fallback freq := by
  simp only [selectInterval, intervalsWithDefinedStartTimes, selectIntervalGo]
  split_ifs <;> omega

theorem halfHourFlag_interval (fallback : Int) (tz : Timezone) (freq : Int)
    (ranges : List DateRange) (h : halfHourFlag fallback tz freq ranges = true) :
    selectInterval fallback freq = 60 := by
  unfold halfHourFlag at h
  simp only [Bool.and_eq_true, beq_iff_eq] at h
  exact h.2

end SlotGen

namespace SlotGen

/-! ### The in-place sort of line 81 -/

theorem rangeLE_total (a b : DateRange) : rangeLE a b = true ∨ rangeLE b a = true := by
  unfold rangeLE
  simp only [decide_eq_true_eq]
  omega

theorem rangeLE_trans (a b c : DateRange) (h1 : rangeLE a b = true) (h2 : rangeLE b c = true) :
    rangeLE a c = true := by
  unfold rangeLE at *
  simp only [decide_eq_true_eq] at *
  omega

theorem orderedInsert_perm (a : DateRange) (l : List DateRange) :
    (orderedInsert a l).Perm (a :: l) := by
  induction l with
  | nil => exact List.Perm.refl _
  | cons b t ih =>
      unfold orderedInsert
      split
      · exact List.Perm.refl _
      · exact (List.Perm.cons b ih).trans (List.Perm.swap a b t)

theorem sortRanges_perm (l : List DateRange) : (sortRanges l).Perm l := by
  induction l with
  | nil => exact List.Perm.refl _
  | cons a t ih =>
      unfold sortRanges
      exact (orderedInsert_perm a (sortRanges t)).trans (List.Perm.cons a ih)

theorem sortRanges_mem (r : DateRange) (l : List DateRange) : r ∈ sortRanges l ↔ r ∈ l :=
  (sortRanges_perm l).mem_iff

theorem orderedInsert_pairwise (a : DateRange) (l : List DateRange)
    (hl : l.Pairwise (fun x y => rangeLE x y = true)) :
    (orderedInsert a l).Pairwise (fun x y => rangeLE x y = true) := by
  induction l with
  | nil => simp [orderedInsert]
  | cons b t ih =>
      unfold orderedInsert
      rcases List.pairwise_cons.mp hl with ⟨hbt, ht⟩
      split
      · rename_i hab
        refine List.pairwise_cons.mpr ⟨?_, hl⟩
        intro y hy
        rcases List.mem_cons.mp hy with h | h
        · exact h ▸ hab
        · exact rangeLE_trans a b y hab (hbt y h)
      · rename_i hab
        refine List.pairwise_cons.mpr ⟨?_, ih ht⟩
        intro y hy
        rcases List.mem_cons.mp ((orderedInsert_perm a t).mem_iff.mp hy) with h | h
        · rcases rangeLE_total a b with h' | h'
          · exact absurd h' hab
          · exact h ▸ h'
        · exact hbt y h

theorem sortRanges_pairwise (l : List DateRange) :
    (sortRanges l).Pairwise (fun x y => rangeLE x y = true) := by
  induction l with
  | nil => simp [sortRanges]
  | cons a t ih => exact orderedInsert_pairwise a (sortRanges t) ih

theorem orderedInsert_eq_cons (a : DateRange) (l : List DateRange)
    (h : ∀ y ∈ l, rangeLE a y = true) : orderedInsert a l = a :: l := by
  cases l with
  | nil => rfl
  | cons b t =>
      unfold orderedInsert
      rw [if_pos (h b (List.mem_cons_self _ _))]

theorem sortRanges_eq_self (l : List DateRange)
    (hl : l.Pairwise (fun x y => rangeLE x y = true)) : sortRanges l = l := by
  induction l with
  | nil => rfl
  | cons a t ih =>
      rcases List.pairwise_cons.mp hl with ⟨hat, ht⟩
      unfold sortRanges
      rw [ih ht, orderedInsert_eq_cons a t hat]

theorem orderedInsert_decomp (a : DateRange) (l : List DateRange) :
    ∃ l1 l2, orderedInsert a l = l1 ++ a :: l2 ∧ l1 ++ l2 = l := by
  induction l with
  | nil => exact ⟨[], [], rfl, rfl⟩
  | cons b t ih =>
      unfold orderedInsert
      split
      · exact ⟨[], b :: t, rfl, rfl⟩
      · rcases ih with ⟨l1, l2, h1, h2⟩
        exact ⟨b :: l1, l2, by rw [h1]; rfl, by rw [List.cons_append, h2]⟩

theorem orderedInsert_cons (a b : DateRange) (l : List DateRange) :
    orderedInsert a (b :: l) = if rangeLE a b then a :: b :: l else b :: orderedInsert a l := rfl

theorem orderedInsert_around (x b : DateRange) (l1 l2 : List DateRange)
    (hb : ∀ y ∈ l2, rangeLE b y = true) :
    ∃ m1 m2, orderedInsert x (l1 ++ b :: l2) = m1 ++ b :: m2 ∧
      m1 ++ m2 = orderedInsert x (l1 ++ l2) := by
  induction l1 with
  | nil =>
      simp only [List.nil_append]
      rw [orderedInsert_cons]
      split
      · rename_i hxb
        refine ⟨[x], l2, rfl, ?_⟩
        cases l2 with
        | nil => rfl
        | cons h t =>
            rw [orderedInsert_cons,
              if_pos (rangeLE_trans x b h hxb (hb h (List.mem_cons_self _ _)))]
            rfl
      · refine ⟨[], orderedInsert x l2, rfl, ?_⟩
        simp
  | cons a t ih =>
      simp only [List.cons_append]
      rw [orderedInsert_cons]
      split
      · rename_i hxa
        refine ⟨x :: a :: t, l2, rfl, ?_⟩
        rw [orderedInsert_cons, if_pos hxa]
        rfl
      · rcases ih with ⟨m1, m2, h1, h2⟩
        refine ⟨a :: m1, m2, by rw [List.cons_append, h1], ?_⟩
        rw [orderedInsert_cons, if_neg (by assumption), List.cons_append, h2]

theorem sortRanges_around (b : DateRange) (xs ys : List DateRange) :
    ∃ l1 l2, sortRanges (xs ++ b :: ys) = l1 ++ b :: l2 ∧
      l1 ++ l2 = sortRanges (xs ++ ys) := by
  induction xs with
  | nil =>
      simp only [List.nil_append]
      rcases orderedInsert_decomp b (sortRanges ys) with ⟨l1, l2, h1, h2⟩
      exact ⟨l1, l2, by rw [sortRanges, h1], h2⟩
  | cons x xs ih =>
      rcases ih with ⟨l1, l2, h1, h2⟩
      have hsorted := sortRanges_pairwise (xs ++ b :: ys)
      rw [h1] at hsorted
      have hb : ∀ y ∈ l2, rangeLE b y = true :=
        (List.pairwise_cons.mp (List.pairwise_append.mp hsorted).2.1).1
      rcases orderedInsert_around x b l1 l2 hb with ⟨m1, m2, g1, g2⟩
      refine ⟨m1, m2, ?_, ?_⟩
      · rw [List.cons_append, sortRanges, h1]
        exact g1
      · rw [List.cons_append, sortRanges, ← h2]
        exact g2

end SlotGen

namespace SlotGen

/-! ### Facts needed for the malformed-range behaviour -/

theorem emitLoop_succ (P : BuildParams) (dk re : Int) (fuel : Nat) (c : Int) (m : SlotMap) :
    emitLoop P dk re (fuel + 1) c m =
      if c + 60 * P.len - 1 > re then (m, true)
      else emitLoop P dk re fuel (nextSlotUTC P c)
        (mapSet m c (mkSlotData (P.ooo dk) { instant := c, utcOffset := P.tzOffset })) := rfl

theorem rangeStartAdjusted_ge_start (P : BuildParams) (keys : List Int) (r : DateRange)
    (hi : 1 ≤ P.interval) (hoff : 0 ≤ P.off) (hfi : P.flag = true → P.interval = 60) :
    r.start.instant ≤ rangeStartAdjusted P keys r := by
  unfold rangeStartAdjusted
  apply overlapAdjust_inv (motive := fun c => r.start.instant ≤ c)
  · intro c k _ hc
    unfold overlapAdjustStep
    split
    · rename_i h
      split
      · rename_i hsnap; omega
      · omega
    · exact hc
  · exact (preStart_props P r hi hoff hfi).2.1

theorem processRange_malformed (P : BuildParams) (r : DateRange)
    (hi : 1 ≤ P.interval) (hoff : 0 ≤ P.off) (hlen : 1 ≤ P.len)
    (hfi : P.flag = true → P.interval = 60)
    (hr : r.endTime.instant < r.start.instant) (m : SlotMap) : processRange P m r = m := by
  have hc := rangeStartAdjusted_ge_start P (m.map Prod.fst) r hi hoff hfi
  unfold processRange
  rw [emitLoop_succ, if_pos (by omega)]

theorem foldl_skip (P : BuildParams) (bad : DateRange)
    (hbad : ∀ m : SlotMap, processRange P m bad = m) :
    ∀ (l1 : List DateRange) (l2 : List DateRange) (m : SlotMap),
      (l1 ++ bad :: l2).foldl (fun m r => processRange P m r) m =
      (l1 ++ l2).foldl (fun m r => processRange P m r) m := by
  intro l1
  induction l1 with
  | nil =>
      intro l2 m
      simp only [List.nil_append, List.foldl_cons, hbad m]
  | cons a t ih =>
      intro l2 m
      simp only [List.cons_append, List.foldl_cons]
      exact ih l2 _

theorem buildSlots_eq (fallback now : Int) (tz : Timezone) (ranges : List DateRange)
    (frequency eventLength minimumBookingNotice : Int) (offsetStart : Option Int)
    (datesOutOfOffice : OOOData) :
    buildSlotsWithDateRanges fallback now tz ranges frequency eventLength
        minimumBookingNotice offsetStart datesOutOfOffice =
      (((sortRanges ranges).foldl
          (fun m r => processRange (mkBuildParams fallback now tz ranges frequency
            eventLength minimumBookingNotice offsetStart datesOutOfOffice) m r)
          []).map Prod.snd,
        sortRanges ranges) := rfl

theorem mkBuildParams_congr (fallback now : Int) (tz : Timezone)
    (ranges1 ranges2 : List DateRange)
    (frequency eventLength minimumBookingNotice : Int) (offsetStart : Option Int)
    (datesOutOfOffice : OOOData)
    (h : halfHourFlag fallback tz (minimumOfOne frequency) ranges1 =
      halfHourFlag fallback tz (minimumOfOne frequency) ranges2) :
    mkBuildParams fallback now tz ranges1 frequency eventLength minimumBookingNotice
        offsetStart datesOutOfOffice =
      mkBuildParams fallback now tz ranges2 frequency eventLength minimumBookingNotice
        offsetStart datesOutOfOffice := by
  unfold mkBuildParams
  simp only []
  rw [h]

theorem mkBuildParams_freq (fallback now : Int) (tz : Timezone) (ranges : List DateRange)
    (frequency eventLength minimumBookingNotice : Int) (offsetStart : Option Int)
    (datesOutOfOffice : OOOData) :
    (mkBuildParams fallback now tz ranges frequency eventLength minimumBookingNotice
      offsetStart datesOutOfOffice).freq = minimumOfOne frequency := rfl

theorem mkBuildParams_flag_interval (fallback now : Int) (tz : Timezone)
    (ranges : List DateRange)
    (frequency eventLength minimumBookingNotice : Int) (offsetStart : Option Int)
    (datesOutOfOffice : OOOData)
    (h : (mkBuildParams fallback now tz ranges frequency eventLength minimumBookingNotice
      offsetStart datesOutOfOffice).flag = true) :
    (mkBuildParams fallback now tz ranges frequency eventLength minimumBookingNotice
      offsetStart datesOutOfOffice).interval = 60 :=
  halfHourFlag_interval fallback tz (minimumOfOne frequency) ranges h

end SlotGen

namespace SlotGen

/-! ### The minimum-notice invariant (for the notice-floor property) -/

/-- Invariant carried by every candidate instant and by every key of the slot
map: the instant is at or after the minimum-notice floor, and, when the
half-hour correction is active, so is its minute-30 version (the correction
can move an instant backwards, but never below this floor). -/
def noticeInv (P : BuildParams) (k : Int) : Prop :=
  P.minNoticeFloor ≤ k ∧ (P.flag = true → P.minNoticeFloor ≤ setMinuteUTC k 30)

theorem noticeInv_next (P : BuildParams) (c : Int)
    (hoff : 0 ≤ P.off) (hfreq : 1 ≤ P.freq) (hc : noticeInv P c) :
    noticeInv P (nextSlotUTC P c) := by
  have hq : 0 ≤ (minuteUTC c + (P.freq + P.off)) / 60 := by
    have := minuteUTC_range c
    omega
  have hadd := setMinuteUTC_add c (P.freq + P.off)
  unfold nextSlotUTC applyHalfHour
  split
  · rename_i h
    have hkey : P.minNoticeFloor ≤ setMinuteUTC (c + 60 * (P.freq + P.off)) 30 := by
      have := hc.2 h.1
      omega
    exact ⟨hkey, fun _ => by rw [setMinuteUTC_eq_self _ (setMinuteUTC_minute _)]; exact hkey⟩
  · rename_i h
    push_neg at h
    constructor
    · have := hc.1; omega
    · intro hf
      rw [setMinuteUTC_eq_self _ (h hf)]
      have := hc.1
      omega

theorem noticeInv_entry (P : BuildParams) (keys : List Int) (r : DateRange)
    (hi : 1 ≤ P.interval) (hoff : 0 ≤ P.off)
    (hfi : P.flag = true → P.interval = 60)
    (hkeys : ∀ k ∈ keys, noticeInv P k) :
    noticeInv P (rangeStartAdjusted P keys r) := by
  unfold rangeStartAdjusted
  apply overlapAdjust_inv (motive := noticeInv P)
  · intro c k hk hc
    unfold overlapAdjustStep
    split
    · rename_i hcond
      split
      · exact hkeys k hk
      · have hkk := hkeys k hk
        have hadd := setMinuteUTC_add k (P.freq + P.off)
        have hq : 0 ≤ (minuteUTC k + (P.freq + P.off)) / 60 := by
          have := minuteUTC_range k
          omega
        constructor
        · have := hc.1; omega
        · intro hf
          have h1 := hkk.2 hf
          omega
    · exact hc
  · have hw := preStart_props P r hi hoff hfi
    exact ⟨hw.1, fun hf => by rw [setMinuteUTC_eq_self _ (hw.2.2 hf)]; exact hw.1⟩

theorem mkSlotData_time (entry : Option OOOEntry) (t : Dayjs) : (mkSlotData entry t).time = t := by
  unfold mkSlotData
  cases entry <;> rfl

theorem buildSlots_fold_notice (P : BuildParams) (l : List DateRange)
    (hi : 1 ≤ P.interval) (hoff : 0 ≤ P.off) (hfreq : 1 ≤ P.freq)
    (hfi : P.flag = true → P.interval = 60) :
    ∀ p ∈ l.foldl (fun m r => processRange P m r) ([] : SlotMap),
      p.2.time.instant = p.1 ∧ noticeInv P p.1 := by
  apply foldl_processRange_inv P (fun p => p.2.time.instant = p.1 ∧ noticeInv P p.1) l
  · intro m r _ hm
    apply processRange_inv P r (noticeInv P)
    · intro m' hm'
      apply noticeInv_entry P _ r hi hoff hfi
      intro k hk
      rcases List.mem_map.mp hk with ⟨p, hp, hpk⟩
      exact hpk ▸ (hm' p hp).2
    · intro c hc _
      exact noticeInv_next P c hoff hfreq hc
    · intro c hc _
      exact ⟨by rw [mkSlotData_time], hc⟩
    · exact hm
  · intro p hp
    exact absurd hp (List.not_mem_nil p)

end SlotGen

namespace SlotGen

/-! ### Containment, out-of-office and minute-30 invariants -/

theorem next_ge (P : BuildParams) (c : Int) (hoff : 0 ≤ P.off) (hfreq : 1 ≤ P.freq)
    (hdvd : P.flag = true → (60 : Int) ∣ P.freq) : c ≤ nextSlotUTC P c := by
  unfold nextSlotUTC applyHalfHour
  split
  · rename_i h
    rcases hdvd h.1 with ⟨d, hd⟩
    have := setMinuteUTC_lb (c + 60 * (P.freq + P.off))
    omega
  · omega

theorem buildSlots_fold_containment (P : BuildParams) (l : List DateRange)
    (hi : 1 ≤ P.interval) (hoff : 0 ≤ P.off) (hfreq : 1 ≤ P.freq)
    (hfi : P.flag = true → P.interval = 60) (hdvd : P.flag = true → (60 : Int) ∣ P.freq) :
    ∀ p ∈ l.foldl (fun m r => processRange P m r) ([] : SlotMap),
      p.2.time.instant = p.1 ∧
      ∃ r ∈ l, r.start.instant ≤ p.1 ∧ p.1 + 60 * P.len - 1 ≤ r.endTime.instant := by
  apply foldl_processRange_inv P
    (fun p => p.2.time.instant = p.1 ∧
      ∃ r ∈ l, r.start.instant ≤ p.1 ∧ p.1 + 60 * P.len - 1 ≤ r.endTime.instant) l
  · intro m r hr hm
    apply processRange_inv P r (fun c => r.start.instant ≤ c)
    · intro m' _
      exact rangeStartAdjusted_ge_start P _ r hi hoff hfi
    · intro c hc _
      exact le_trans hc (next_ge P c hoff hfreq hdvd)
    · intro c hc hre
      exact ⟨by rw [mkSlotData_time], r, hr, hc, hre⟩
    · exact hm
  · intro p hp
    exact absurd hp (List.not_mem_nil p)

theorem buildSlots_fold_ooo (P : BuildParams) (l : List DateRange) :
    ∀ p ∈ l.foldl (fun m r => processRange P m r) ([] : SlotMap),
      ∃ r ∈ l, p.2 = mkSlotData (P.ooo (localDayIndex r.start))
        { instant := p.1, utcOffset := P.tzOffset } := by
  apply foldl_processRange_inv P
    (fun p => ∃ r ∈ l, p.2 = mkSlotData (P.ooo (localDayIndex r.start))
      { instant := p.1, utcOffset := P.tzOffset }) l
  · intro m r hr hm
    apply processRange_inv P r (fun _ => True)
    · intro _ _; trivial
    · intro _ _ _; trivial
    · intro c _ _
      exact ⟨r, hr, rfl⟩
    · exact hm
  · intro p hp
    exact absurd hp (List.not_mem_nil p)

theorem buildSlots_fold_minute30 (P : BuildParams) (l : List DateRange)
    (hf : P.flag = true) (hoff0 : P.off = 0) (hdvd : (60 : Int) ∣ P.freq) :
    ∀ p ∈ l.foldl (fun m r => processRange P m r) ([] : SlotMap),
      p.2.time = { instant := p.1, utcOffset := P.tzOffset } ∧
        1800 ≤ p.1 % 3600 ∧ p.1 % 3600 < 1860 := by
  apply foldl_processRange_inv P
    (fun p => p.2.time = { instant := p.1, utcOffset := P.tzOffset } ∧
      1800 ≤ p.1 % 3600 ∧ p.1 % 3600 < 1860) l
  · intro m r _ hm
    apply processRange_inv P r (fun c => 1800 ≤ c % 3600 ∧ c % 3600 < 1860)
    · intro m' hm'
      unfold rangeStartAdjusted
      apply overlapAdjust_inv (motive := fun c => 1800 ≤ c % 3600 ∧ c % 3600 < 1860)
      · intro c k hk hc
        unfold overlapAdjustStep
        split
        · split
          · rename_i hksnap
            have hkinv : 1800 ≤ k % 3600 ∧ k % 3600 < 1860 := by
              rcases List.mem_map.mp hk with ⟨p, hp, hpk⟩
              exact hpk ▸ (hm' p hp).2
            exact hkinv
          · rename_i hkadv
            have hkinv : 1800 ≤ k % 3600 ∧ k % 3600 < 1860 := by
              rcases List.mem_map.mp hk with ⟨p, hp, hpk⟩
              exact hpk ▸ (hm' p hp).2
            rcases hdvd with ⟨d, hd⟩
            rw [hoff0]
            have : k + 60 * (P.freq + 0) = k + 3600 * d := by omega
            rw [this]
            omega
        · exact hc
      · exact (minuteUTC_eq_30_iff _).mp
          (applyHalfHour_minute P (roundToInterval P (clampToNotice P r) + 60 * P.off) hf)
    · intro c _ _
      exact (minuteUTC_eq_30_iff _).mp (applyHalfHour_minute P _ hf)
    · intro c hc _
      exact ⟨by rw [mkSlotData_time], hc⟩
    · exact hm
  · intro p hp
    exact absurd hp (List.not_mem_nil p)

/-- With the half-hour correction inactive, the emission loop produces
exactly the arithmetic progression stepping by `frequency + offsetStart`:
every key of the result is either an old key or `c + step * i`. -/
theorem emitLoop_keys_mem (P : BuildParams) (dk re : Int) (hflag : P.flag = false) :
    ∀ (fuel : Nat) (c : Int) (m : SlotMap) (k : Int),
      k ∈ ((emitLoop P dk re fuel c m).1.map Prod.fst) →
      k ∈ m.map Prod.fst ∨ ∃ i : Nat, k = c + 60 * (P.freq + P.off) * (i : Int) := by
  intro fuel
  induction fuel with
  | zero => intro c m k hk; exact Or.inl hk
  | succ n ih =>
      intro c m k hk
      rw [emitLoop_succ] at hk
      split at hk
      · exact Or.inl hk
      · rcases ih _ _ k hk with h | ⟨i, hi⟩
        · have : k = c ∨ k ∈ m.map Prod.fst := by
            rcases List.mem_map.mp h with ⟨p, hp, hpk⟩
            rcases mapSet_mem m c _ p hp with h' | h'
            · left; rw [← hpk, h']
            · right; exact hpk ▸ List.mem_map_of_mem Prod.fst h'
          rcases this with h' | h'
          · exact Or.inr ⟨0, by simp [h']⟩
          · exact Or.inl h'
        · have hnext : nextSlotUTC P c = c + 60 * (P.freq + P.off) := by
            unfold nextSlotUTC
            rw [applyHalfHour_of_not_flag P _ hflag]
          refine Or.inr ⟨i + 1, ?_⟩
          rw [hi, hnext]
          push_cast
          ring

end SlotGen

namespace SlotGen

/-! ### Concrete fixtures used by witnesses and counterexamples -/

def tzUTC : Timezone := { name := "UTC", utcOffset := 0 }

def tzIST : Timezone := { name := "Asia/Kolkata", utcOffset := 330 }

def tzACST : Timezone := { name := "Australia/Adelaide", utcOffset := 570 }

def noOOO : OOOData := fun _ => none

def rWit : DateRange :=
  { start := { instant := 0, utcOffset := 0 }, endTime := { instant := 5400, utcOffset := 0 } }

def rIST : DateRange :=
  { start := { instant := 16200, utcOffset := 330 },
    endTime := { instant := 27000, utcOffset := 330 } }

/-! ### Claim C4 -/

theorem selectIntervalGo_eq_find (fallback freq : Int) (l : List Int) :
    selectIntervalGo fallback freq l = (l.find? (fun d => freq % d == 0)).getD fallback := by
  induction l with
  | nil => rfl
  | cons d rest ih =>
      unfold selectIntervalGo
      by_cases h : freq % d = 0
      · rw [if_pos h, List.find?_cons_of_pos _ (by simpa using h)]
        rfl
      · rw [if_neg h, List.find?_cons_of_neg _ (by simpa using h), ih]

/-- C4: for every frequency (after clamping) and fallback, the interval
selection of `buildSlotsWithDateRanges` returns the first element of the
ordered list [60, 30, 20, 15, 10, 5] dividing the frequency evenly, and the
configured fallback when none does; concretely, frequency 45 selects 15 and
frequency 37 selects the fallback. -/
theorem selectInterval_first_divisor (fallback freq : Int) :
    selectInterval fallback freq = selectIntervalSpec fallback freq ∧
    selectInterval fallback 45 = 15 ∧
    selectInterval fallback 37 = fallback := by
  refine ⟨selectIntervalGo_eq_find fallback freq _, ?_, ?_⟩ <;>
    norm_num [selectInterval, selectIntervalGo, intervalsWithDefinedStartTimes]

/-! ### Claim C7 -/

/-- C7 counterexample: `offsetStart = 0` is passed through as 0 instead of
being clamped to `max 0 1 = 1` (JS truthiness treats the present value 0 as
absent), and the run with `offsetStart = some 0` spaces slots by the bare
frequency (30 min), not by `frequency + 1`. -/
theorem offsetStart_zero_not_clamped :
    normalizeOffsetStart (some 0) = 0 ∧
    ¬ normalizeOffsetStart (some 0) = max 0 1 ∧
    ((buildSlotsWithDateRanges 1 0 tzUTC [rWit] 30 30 0 (some 0) noOOO).1.map
      fun s => s.time.instant) = [0, 1800, 3600] := by
  refine ⟨by decide, by decide, by decide⟩

/-- C7 (amended): `frequency` and `eventLength` are always clamped to
`max · 1`; `offsetStart` is clamped to `max · 1` only when present and
nonzero, while an absent or zero `offsetStart` becomes 0 (not 1); the step
`frequency + offsetStart` used by the loop is still always at least 1
minute, so no zero-width step occurs. -/
theorem clamping_amended (f l v : Int) (o : Option Int) :
    minimumOfOne f = max f 1 ∧
    minimumOfOne l = max l 1 ∧
    normalizeOffsetStart none = 0 ∧
    normalizeOffsetStart (some 0) = 0 ∧
    (v ≠ 0 → normalizeOffsetStart (some v) = max v 1) ∧
    1 ≤ minimumOfOne f + normalizeOffsetStart o := by
  have h1 := minimumOfOne_ge f
  have h2 := normalizeOffsetStart_nonneg o
  refine ⟨?_, ?_, rfl, by decide, ?_, by omega⟩
  · unfold minimumOfOne; split <;> omega
  · unfold minimumOfOne; split <;> omega
  · intro hv
    simp only [normalizeOffsetStart]
    rw [if_neg hv]
    unfold minimumOfOne
    split <;> omega

theorem clamping_amended_witness :
    minimumOfOne 0 = max 0 1 ∧
    normalizeOffsetStart (some 5) = max 5 1 ∧
    1 ≤ minimumOfOne 0 + normalizeOffsetStart (some 0) :=
  ⟨(clamping_amended 0 (-3) 5 (some 0)).1,
   (clamping_amended 0 (-3) 5 (some 0)).2.2.2.2.1 (by decide),
   (clamping_amended 0 (-3) 5 (some 0)).2.2.2.2.2⟩

/-! ### Claim C10 -/

def r1Sorted : DateRange :=
  { start := { instant := 0, utcOffset := 0 }, endTime := { instant := 1800, utcOffset := 0 } }

def r2Sorted : DateRange :=
  { start := { instant := 3600, utcOffset := 0 }, endTime := { instant := 7200, utcOffset := 0 } }

/-- C10 counterexample: after the call, the caller's `dateRanges` array is
sorted in place (line 81 uses `Array.prototype.sort`), so an unsorted input
comes back in a different order. -/
theorem sort_mutates_input_order :
    (buildSlotsWithDateRanges 1 0 tzUTC [r2Sorted, r1Sorted] 30 30 0 none noOOO).2 =
      [r1Sorted, r2Sorted] ∧
    [r1Sorted, r2Sorted] ≠ [r2Sorted, r1Sorted] := by
  refine ⟨by decide, by decide⟩

/-- C10 (amended): `buildSlotsWithDateRanges` sorts the caller's `dateRanges`
array in place; after the call the array holds the same elements as a
permutation in ascending-start order, and it is unchanged when the input was
already sorted.  The out-of-office map is only read, never written. -/
theorem buildSlots_ranges_after (fallback now : Int) (tz : Timezone) (ranges : List DateRange)
    (frequency eventLength minimumBookingNotice : Int) (offsetStart : Option Int)
    (datesOutOfOffice : OOOData) :
    ((buildSlotsWithDateRanges fallback now tz ranges frequency eventLength
        minimumBookingNotice offsetStart datesOutOfOffice).2).Perm ranges ∧
    (ranges.Pairwise (fun a b => rangeLE a b = true) →
      (buildSlotsWithDateRanges fallback now tz ranges frequency eventLength
        minimumBookingNotice offsetStart datesOutOfOffice).2 = ranges) := by
  rw [buildSlots_eq]
  exact ⟨sortRanges_perm ranges, fun h => sortRanges_eq_self ranges h⟩

theorem buildSlots_ranges_after_witness :
    ((buildSlotsWithDateRanges 1 0 tzUTC [r1Sorted, r2Sorted] 30 30 0 none noOOO).2).Perm
      [r1Sorted, r2Sorted] ∧
    (buildSlotsWithDateRanges 1 0 tzUTC [r1Sorted, r2Sorted] 30 30 0 none noOOO).2 =
      [r1Sorted, r2Sorted] :=
  ⟨(buildSlots_ranges_after 1 0 tzUTC [r1Sorted, r2Sorted] 30 30 0 none noOOO).1,
   (buildSlots_ranges_after 1 0 tzUTC [r1Sorted, r2Sorted] 30 30 0 none noOOO).2 (by decide)⟩

/-! ### Claim C6 -/

def oooPTO : OOOData := fun d =>
  if d = 1 then
    some { fromUser := none, toUser := none, reason := some "PTO", emoji := some "tree" }
  else none

/-- C6 counterexample: a UTC range crossing midnight.  The slot at instant
86400 lies on local day 1, for which the out-of-office map has an entry, yet
the slot carries no `away`/`reason`: the code looks every slot of the range
up under the *range start's* date (day 0), not the slot's own date. -/
theorem ooo_key_is_range_start_date :
    ((buildSlotsWithDateRanges 1 0 tzUTC
        [{ start := { instant := 82800, utcOffset := 0 },
           endTime := { instant := 91800, utcOffset := 0 } }]
        60 30 0 none oooPTO).1.map fun s => (s.time.instant, s.away, s.reason)) =
      [(82800, none, none), (86400, none, none), (90000, none, none)] ∧
    localDayIndex { instant := 86400, utcOffset := 0 } = 1 ∧
    (oooPTO 1).isSome = true := by
  refine ⟨by decide, by decide, by decide⟩

/-- C6 (amended): every returned slot was produced for some input range and
equals `mkSlotData` of the out-of-office entry found under the local
calendar date of that *range's start* (in the range start's own offset),
computed once per range: when the entry exists the slot carries `away: true`
plus exactly the truthy fields (`fromUser`/`toUser` when defined, `reason`/
`emoji` when defined and nonempty), and no such fields otherwise — also for
slots whose own local date differs from the range start's date. -/
theorem buildSlots_ooo_fields (fallback now : Int) (tz : Timezone) (ranges : List DateRange)
    (frequency eventLength minimumBookingNotice : Int) (offsetStart : Option Int)
    (datesOutOfOffice : OOOData) :
    ∀ s ∈ (buildSlotsWithDateRanges fallback now tz ranges frequency eventLength
        minimumBookingNotice offsetStart datesOutOfOffice).1,
      ∃ r ∈ ranges,
        s = mkSlotData (datesOutOfOffice (localDayIndex r.start))
          { instant := s.time.instant, utcOffset := tz.utcOffset } := by
  intro s hs
  rw [buildSlots_eq] at hs
  rcases List.mem_map.mp hs with ⟨p, hp, rfl⟩
  rcases buildSlots_fold_ooo (mkBuildParams fallback now tz ranges frequency eventLength
      minimumBookingNotice offsetStart datesOutOfOffice) (sortRanges ranges) p hp
    with ⟨r, hr, heq⟩
  refine ⟨r, (sortRanges_mem r ranges).mp hr, ?_⟩
  have htime : p.2.time.instant = p.1 := by rw [heq, mkSlotData_time]
  rw [htime]
  exact heq

end SlotGen

namespace SlotGen

/-! ### Claim C1 -/

/-- C1: for every slot returned by `buildSlotsWithDateRanges`, under any
inputs and any frozen now (and any positive configured fallback granularity,
the shape `Number(env) || 1` produces), the slot's UTC start instant is at
least now + minimumBookingNotice minutes — including when the half-hour
correction is active, which can move candidates backwards but never below
this floor. -/
theorem buildSlots_notice_floor (fallback now : Int) (tz : Timezone) (ranges : List DateRange)
    (frequency eventLength minimumBookingNotice : Int) (offsetStart : Option Int)
    (datesOutOfOffice : OOOData) (hfb : 1 ≤ fallback) :
    ∀ s ∈ (buildSlotsWithDateRanges fallback now tz ranges frequency eventLength
        minimumBookingNotice offsetStart datesOutOfOffice).1,
      now + 60 * minimumBookingNotice ≤ s.time.instant := by
  intro s hs
  rw [buildSlots_eq] at hs
  rcases List.mem_map.mp hs with ⟨p, hp, rfl⟩
  have h := buildSlots_fold_notice
    (mkBuildParams fallback now tz ranges frequency eventLength minimumBookingNotice
      offsetStart datesOutOfOffice)
    (sortRanges ranges)
    (selectInterval_pos fallback (minimumOfOne frequency) hfb)
    (normalizeOffsetStart_nonneg offsetStart)
    (minimumOfOne_ge frequency)
    (mkBuildParams_flag_interval fallback now tz ranges frequency eventLength
      minimumBookingNotice offsetStart datesOutOfOffice)
    p hp
  rcases h with ⟨ht, hN, _⟩
  rw [ht]
  exact hN

theorem buildSlots_notice_floor_witness :
    (1 : Int) ≤ 1 ∧
    (0 : Int) + 60 * 0 ≤ (mkSlotData none { instant := 0, utcOffset := 0 }).time.instant :=
  ⟨le_refl 1,
   buildSlots_notice_floor 1 0 tzUTC [rWit] 30 30 0 none noOOO (le_refl 1)
     (mkSlotData none { instant := 0, utcOffset := 0 }) (by decide)⟩

/-! ### Claim C2 -/

/-- C2: every returned slot's interval [time, time + eventLength minutes)
lies inside some input DateRange, with the 1-second end tolerance of the
emission loop, and no slot starts before the start of a range containing it.
Proved for every input under the configuration premise that when the
selection yields interval 60, the (clamped) frequency is a multiple of 60 —
this always holds unless the env fallback is set to 60 with an incompatible
frequency, a regime in which the loop can fail to terminate (see the
divergence theorem for C9). -/
theorem buildSlots_containment (fallback now : Int) (tz : Timezone) (ranges : List DateRange)
    (frequency eventLength minimumBookingNotice : Int) (offsetStart : Option Int)
    (datesOutOfOffice : OOOData) (hfb : 1 ≤ fallback)
    (hdvd : selectInterval fallback (minimumOfOne frequency) = 60 →
      (60 : Int) ∣ minimumOfOne frequency) :
    ∀ s ∈ (buildSlotsWithDateRanges fallback now tz ranges frequency eventLength
        minimumBookingNotice offsetStart datesOutOfOffice).1,
      ∃ r ∈ ranges, r.start.instant ≤ s.time.instant ∧
        s.time.instant + 60 * minimumOfOne eventLength - 1 ≤ r.endTime.instant := by
  intro s hs
  rw [buildSlots_eq] at hs
  rcases List.mem_map.mp hs with ⟨p, hp, rfl⟩
  have h := buildSlots_fold_containment
    (mkBuildParams fallback now tz ranges frequency eventLength minimumBookingNotice
      offsetStart datesOutOfOffice)
    (sortRanges ranges)
    (selectInterval_pos fallback (minimumOfOne frequency) hfb)
    (normalizeOffsetStart_nonneg offsetStart)
    (minimumOfOne_ge frequency)
    (mkBuildParams_flag_interval fallback now tz ranges frequency eventLength
      minimumBookingNotice offsetStart datesOutOfOffice)
    (fun hf => hdvd (mkBuildParams_flag_interval fallback now tz ranges frequency
      eventLength minimumBookingNotice offsetStart datesOutOfOffice hf))
    p hp
  rcases h with ⟨ht, r, hr, h1, h2⟩
  exact ⟨r, (sortRanges_mem r ranges).mp hr, by rw [ht]; exact h1, by rw [ht]; exact h2⟩

theorem buildSlots_containment_witness :
    ∃ r ∈ [rWit],
      r.start.instant ≤ (mkSlotData none { instant := 0, utcOffset := 0 }).time.instant ∧
      (mkSlotData none { instant := 0, utcOffset := 0 }).time.instant +
        60 * minimumOfOne 30 - 1 ≤ r.endTime.instant :=
  buildSlots_containment 1 0 tzUTC [rWit] 30 30 0 none noOOO (le_refl 1) (by decide)
    (mkSlotData none { instant := 0, utcOffset := 0 }) (by decide)

/-! ### Claim C5 -/

/-- C5 counterexample: timeZone Asia/Kolkata, frequency 60, a range starting
on a local :00 boundary (instant 16200 is 10:00 IST) — the emitted slots'
local wall-clock minutes are 0, not 30 (forcing the UTC minute to :30 over a
+5:30 offset lands local times on full hours). -/
theorem half_hour_local_minute_zero :
    rIST.start.minute = 0 ∧
    ((buildSlotsWithDateRanges 1 0 tzIST [rIST] 60 60 0 none noOOO).1.map
      fun s => s.time.minute) = [0, 0] ∧
    ((buildSlotsWithDateRanges 1 0 tzIST [rIST] 60 60 0 none noOOO).1.map
      fun s => s.time.instant) = [19800, 23400] := by
  refine ⟨by decide, by decide, by decide⟩

/-- C5 (amended): when the half-hour correction is active, offsetStart is
absent or zero, and 60 divides the clamped frequency (as when interval 60 is
selected by divisibility), every returned slot starts on UTC minute :30, so
its local wall-clock minute is (30 + timezone offset) mod 60 — for
Asia/Kolkata (offset 330) that is minute :00, not :30. -/
theorem buildSlots_half_hour_utc_minute (fallback now : Int) (tz : Timezone)
    (ranges : List DateRange) (frequency eventLength minimumBookingNotice : Int)
    (offsetStart : Option Int) (datesOutOfOffice : OOOData)
    (hflag : halfHourFlag fallback tz (minimumOfOne frequency) ranges = true)
    (hoff : normalizeOffsetStart offsetStart = 0)
    (hdvd : (60 : Int) ∣ minimumOfOne frequency) :
    ∀ s ∈ (buildSlotsWithDateRanges fallback now tz ranges frequency eventLength
        minimumBookingNotice offsetStart datesOutOfOffice).1,
      minuteUTC s.time.instant = 30 ∧ s.time.minute = (30 + tz.utcOffset) % 60 := by
  intro s hs
  rw [buildSlots_eq] at hs
  rcases List.mem_map.mp hs with ⟨p, hp, rfl⟩
  have h := buildSlots_fold_minute30
    (mkBuildParams fallback now tz ranges frequency eventLength minimumBookingNotice
      offsetStart datesOutOfOffice)
    (sortRanges ranges) hflag hoff hdvd p hp
  rcases h with ⟨ht, h1, h2⟩
  rw [ht]
  constructor
  · rw [minuteUTC_eq_30_iff]
    exact ⟨h1, h2⟩
  · have htz : (mkBuildParams fallback now tz ranges frequency eventLength
        minimumBookingNotice offsetStart datesOutOfOffice).tzOffset = tz.utcOffset := rfl
    unfold Dayjs.minute
    simp only []
    rw [htz]
    omega

theorem buildSlots_half_hour_utc_minute_witness :
    minuteUTC (mkSlotData none { instant := 19800, utcOffset := 330 }).time.instant = 30 ∧
    (mkSlotData none { instant := 19800, utcOffset := 330 }).time.minute =
      (30 + tzIST.utcOffset) % 60 :=
  buildSlots_half_hour_utc_minute 1 0 tzIST [rIST] 60 60 0 none noOOO
    (by decide) (by decide) (dvd_refl 60)
    (mkSlotData none { instant := 19800, utcOffset := 330 }) (by decide)

/-! ### Claim C3 -/

/-- C3 counterexample: Asia/Kolkata, frequency 60, offsetStart 20 — the two
slots produced from one single range are 3600 s apart, strictly less than
the step (frequency + offsetStart) = 80 minutes, because the in-loop
half-hour correction pulls the second candidate back to minute :30. -/
theorem spacing_violated_half_hour :
    ((buildSlotsWithDateRanges 1 0 tzIST [rIST] 60 60 0 (some 20) noOOO).1.map
      fun s => s.time.instant) = [19800, 23400] ∧
    (23400 - 19800 : Int) < 60 * (minimumOfOne 60 + normalizeOffsetStart (some 20)) := by
  refine ⟨by decide, by decide⟩

/-- C3 (amended): when the half-hour correction is inactive, any two
distinct instants emitted by one run of the per-range emission loop (the
loop `buildSlotsWithDateRanges` runs for a single DateRange, from any
overlap-adjusted start) are at least (frequency + offsetStart) minutes
apart; with the correction active the bound can fail, per the
counterexample. -/
theorem emitLoop_same_range_spacing (P : BuildParams) (dk re : Int)
    (hflag : P.flag = false) (hfreq : 1 ≤ P.freq) (hoff : 0 ≤ P.off)
    (fuel : Nat) (c : Int) (m : SlotMap) (k1 k2 : Int)
    (h1 : k1 ∈ ((emitLoop P dk re fuel c m).1.map Prod.fst))
    (h2 : k2 ∈ ((emitLoop P dk re fuel c m).1.map Prod.fst))
    (hn1 : k1 ∉ m.map Prod.fst) (hn2 : k2 ∉ m.map Prod.fst) (hne : k1 ≠ k2) :
    60 * (P.freq + P.off) ≤ k1 - k2 ∨ 60 * (P.freq + P.off) ≤ k2 - k1 := by
  rcases emitLoop_keys_mem P dk re hflag fuel c m k1 h1 with h | ⟨i, hi⟩
  · exact absurd h hn1
  rcases emitLoop_keys_mem P dk re hflag fuel c m k2 h2 with h | ⟨j, hj⟩
  · exact absurd h hn2
  have hnij : (i : Int) ≠ (j : Int) := by
    intro he
    exact hne (by rw [hi, hj, he])
  have hSpos : (0 : Int) ≤ 60 * (P.freq + P.off) := by positivity
  rcases lt_or_gt_of_ne hnij with hlt | hgt
  · right
    have e : k2 - k1 = 60 * (P.freq + P.off) * ((j : Int) - i) := by rw [hi, hj]; ring
    rw [e]
    exact le_mul_of_one_le_right hSpos (by omega)
  · left
    have e : k1 - k2 = 60 * (P.freq + P.off) * ((i : Int) - j) := by rw [hi, hj]; ring
    rw [e]
    exact le_mul_of_one_le_right hSpos (by omega)

theorem emitLoop_same_range_spacing_witness :
    60 * ((mkBuildParams 1 0 tzUTC [rWit] 30 30 0 none noOOO).freq +
        (mkBuildParams 1 0 tzUTC [rWit] 30 30 0 none noOOO).off) ≤ (0 : Int) - 1800 ∨
    60 * ((mkBuildParams 1 0 tzUTC [rWit] 30 30 0 none noOOO).freq +
        (mkBuildParams 1 0 tzUTC [rWit] 30 30 0 none noOOO).off) ≤ (1800 : Int) - 0 :=
  emitLoop_same_range_spacing (mkBuildParams 1 0 tzUTC [rWit] 30 30 0 none noOOO)
    0 5400 (by decide) (by decide) (by decide) 4 0 [] 0 1800
    (by decide) (by decide) (by decide) (by decide) (by decide)

end SlotGen

namespace SlotGen

/-! ### Claim C8 -/

def goodACST : DateRange :=
  { start := { instant := 1800, utcOffset := 570 },
    endTime := { instant := 9000, utcOffset := 570 } }

def badACST : DateRange :=
  { start := { instant := 108000, utcOffset := 570 },
    endTime := { instant := 107000, utcOffset := 570 } }

/-- C8 counterexample: in a half-hour timezone (UTC+9:30), adding a
malformed range (end before start) whose local start minute is :30 toggles
`hasHalfHourStartTimes`, activates the half-hour correction, and changes the
*other* range's slots (3600 becomes 5400) — so a malformed range does not
leave other ranges' slots unaffected. -/
theorem malformed_range_flips_flag :
    badACST.endTime.instant < badACST.start.instant ∧
    badACST.start.minute = 30 ∧
    ((buildSlotsWithDateRanges 1 0 tzACST [goodACST, badACST] 60 60 0 none noOOO).1.map
      fun s => s.time.instant) = [5400] ∧
    ((buildSlotsWithDateRanges 1 0 tzACST [goodACST] 60 60 0 none noOOO).1.map
      fun s => s.time.instant) = [3600] := by
  refine ⟨by decide, by decide, by decide, by decide⟩

/-- C8 (amended): `buildSlotsWithDateRanges` is total: a malformed range
(end before start) makes its emission-loop condition false at the first
check and contributes zero slots, and — provided its presence does not
change the half-hour-start detection (it still participates in the
`hasHalfHourStartTimes` scan of line 73, which can otherwise toggle the
correction) — the slots of the other ranges are exactly those of the call
without it. -/
theorem buildSlots_malformed_skip (fallback now : Int) (tz : Timezone)
    (rs1 rs2 : List DateRange) (bad : DateRange)
    (frequency eventLength minimumBookingNotice : Int) (offsetStart : Option Int)
    (datesOutOfOffice : OOOData)
    (hfb : 1 ≤ fallback) (hbad : bad.endTime.instant < bad.start.instant)
    (hflag : halfHourFlag fallback tz (minimumOfOne frequency) (rs1 ++ bad :: rs2) =
      halfHourFlag fallback tz (minimumOfOne frequency) (rs1 ++ rs2)) :
    (buildSlotsWithDateRanges fallback now tz (rs1 ++ bad :: rs2) frequency eventLength
      minimumBookingNotice offsetStart datesOutOfOffice).1 =
    (buildSlotsWithDateRanges fallback now tz (rs1 ++ rs2) frequency eventLength
      minimumBookingNotice offsetStart datesOutOfOffice).1 := by
  have hPeq := mkBuildParams_congr fallback now tz (rs1 ++ bad :: rs2) (rs1 ++ rs2)
    frequency eventLength minimumBookingNotice offsetStart datesOutOfOffice hflag
  rw [buildSlots_eq, buildSlots_eq, hPeq]
  rcases sortRanges_around bad rs1 rs2 with ⟨l1, l2, h1, h2⟩
  rw [h1, foldl_skip _ bad (fun m => processRange_malformed _ bad
    (selectInterval_pos fallback (minimumOfOne frequency) hfb)
    (normalizeOffsetStart_nonneg offsetStart)
    (minimumOfOne_ge eventLength)
    (mkBuildParams_flag_interval fallback now tz (rs1 ++ rs2) frequency eventLength
      minimumBookingNotice offsetStart datesOutOfOffice)
    hbad m) l1 l2, h2]

theorem buildSlots_malformed_skip_witness :
    (buildSlotsWithDateRanges 1 0 tzUTC
      ([rWit] ++ { start := { instant := 7200, utcOffset := 0 },
                   endTime := { instant := 3600, utcOffset := 0 } } :: []) 30 30 0 none noOOO).1 =
    (buildSlotsWithDateRanges 1 0 tzUTC ([rWit] ++ []) 30 30 0 none noOOO).1 :=
  buildSlots_malformed_skip 1 0 tzUTC [rWit] []
    { start := { instant := 7200, utcOffset := 0 },
      endTime := { instant := 3600, utcOffset := 0 } }
    30 30 0 none noOOO (le_refl 1) (by decide) (by decide)

/-! ### Claim C9 -/

def rC9 : DateRange :=
  { start := { instant := 16200, utcOffset := 330 },
    endTime := { instant := 36000, utcOffset := 330 } }

def PC9 : BuildParams := mkBuildParams 60 0 tzIST [rC9] 7 30 0 none noOOO

/-- C9: the claimed justification fails — interval 60 can be selected via
the env fallback (`NEXT_PUBLIC_AVAILABILITY_SCHEDULE_INTERVAL = 60`) without
60 dividing the frequency.  With frequency 7 in Asia/Kolkata the half-hour
correction is active, the per-iteration advance of 7 minutes is undone by
the minute-30 correction (`nextSlotUTC` has the fixed point 19800), and the
emission loop of the source runs forever: for every amount of fuel the loop
fails to reach its exit condition. -/
theorem emitLoop_diverges :
    PC9.interval = 60 ∧ PC9.flag = true ∧ PC9.freq = 7 ∧
    rangeStartAdjusted PC9 [] rC9 = 19800 ∧
    nextSlotUTC PC9 19800 = 19800 ∧
    ∀ (fuel : Nat) (m : SlotMap),
      (emitLoop PC9 (localDayIndex rC9.start) rC9.endTime.instant fuel 19800 m).2 = false := by
  refine ⟨by decide, by decide, by decide, by decide, by decide, ?_⟩
  intro fuel
  induction fuel with
  | zero => intro m; rfl
  | succ n ih =>
      intro m
      rw [emitLoop_succ, if_neg (by decide)]
      have hfix : nextSlotUTC PC9 19800 = 19800 := by decide
      rw [hfix]
      exact ih _

end SlotGen

namespace SlotGen

def rDay1 : DateRange :=
  { start := { instant := 86400, utcOffset := 0 }, endTime := { instant := 90000, utcOffset := 0 } }

theorem buildSlots_ooo_fields_witness :
    ∃ r ∈ [rDay1],
      mkSlotData (oooPTO 1) { instant := 86400, utcOffset := 0 } =
        mkSlotData (oooPTO (localDayIndex r.start))
          { instant := (mkSlotData (oooPTO 1)
              { instant := 86400, utcOffset := 0 }).time.instant,
            utcOffset := tzUTC.utcOffset } :=
  buildSlots_ooo_fields 1 0 tzUTC [rDay1] 30 30 0 none oooPTO
    (mkSlotData (oooPTO 1) { instant := 86400, utcOffset := 0 }) (by decide)

end SlotGen
